import Mathlib

/-!
Verification development for the Splox node SDK core: the SSE incremental
decoder (src/sse.ts, class SSEStream) and the run-and-wait orchestrator
(src/workflows.ts, WorkflowService.runAndWait).

The embedding works over lists of characters (decoded text) and lists of
natural numbers (bytes).  Platform collaborators used by the source code
(TextDecoder in streaming mode, JSON.parse) are modelled executably from
their standard WHATWG and ECMAScript behaviour; everything else is a direct
transcription of the TypeScript source.
-/

namespace Splox

/-- The double-quote character, U+0022. -/
def quoteChar : Char := Char.ofNat 34

/-- The backslash character, U+005C. -/
def backslashChar : Char := Char.ofNat 92

/-- The opening curly-brace character, U+007B. -/
def lbraceChar : Char := Char.ofNat 123

/-- The closing curly-brace character, U+007D. -/
def rbraceChar : Char := Char.ofNat 125

/-- The Unicode replacement character, U+FFFD. -/
def replChar : Char := Char.ofNat 0xFFFD

/-- JSON values as produced by JSON.parse.  Numbers are approximated by their
integer part (fraction and exponent are validated syntactically but no
verified claim depends on numeric magnitudes). -/
inductive JsonValue where
  | null
  | bool (b : Bool)
  | num (n : Int)
  | str (s : String)
  | arr (xs : List JsonValue)
  | obj (fields : List (String × JsonValue))

/-- Skip the JSON whitespace characters (space, tab, line feed, carriage
return), as JSON.parse does around tokens. -/
def skipJsonWs : List Char → List Char
  | [] => []
  | c :: rest =>
    if c = ' ' ∨ c = Char.ofNat 9 ∨ c = '\n' ∨ c = Char.ofNat 13 then skipJsonWs rest
    else c :: rest

/-- Value of one hexadecimal digit. -/
def hexVal (c : Char) : Option Nat :=
  if '0' ≤ c ∧ c ≤ '9' then some (c.toNat - 48)
  else if 'a' ≤ c ∧ c ≤ 'f' then some (c.toNat - 87)
  else if 'A' ≤ c ∧ c ≤ 'F' then some (c.toNat - 70)
  else none

/-- A code unit escaped with a u-escape.  Lone surrogates are replaced by
U+FFFD (surrogate-pair recombination is not modelled; no claim depends on
it). -/
def scalarChar (code : Nat) : Char :=
  if 0xD800 ≤ code ∧ code ≤ 0xDFFF then replChar else Char.ofNat code

/-- Body of a JSON string literal after the opening quote, per the JSON
grammar accepted by JSON.parse.  Fuelled so that the recursion is structural
and hence reducible by the kernel. -/
def parseStrBody : Nat → List Char → List Char → Option (String × List Char)
  | 0, _, _ => none
  | Nat.succ f, s, acc =>
    match s with
    | [] => none
    | c :: rest =>
      if c = quoteChar then some (String.mk acc.reverse, rest)
      else if c = backslashChar then
        match rest with
        | [] => none
        | e :: rest2 =>
          if e = quoteChar then parseStrBody f rest2 (quoteChar :: acc)
          else if e = backslashChar then parseStrBody f rest2 (backslashChar :: acc)
          else if e = '/' then parseStrBody f rest2 ('/' :: acc)
          else if e = 'b' then parseStrBody f rest2 (Char.ofNat 8 :: acc)
          else if e = 'f' then parseStrBody f rest2 (Char.ofNat 12 :: acc)
          else if e = 'n' then parseStrBody f rest2 ('\n' :: acc)
          else if e = 'r' then parseStrBody f rest2 (Char.ofNat 13 :: acc)
          else if e = 't' then parseStrBody f rest2 (Char.ofNat 9 :: acc)
          else if e = 'u' then
            match rest2 with
            | h1 :: h2 :: h3 :: h4 :: rest3 =>
              match hexVal h1, hexVal h2, hexVal h3, hexVal h4 with
              | some a, some b, some c2, some d =>
                parseStrBody f rest3 (scalarChar (((a * 16 + b) * 16 + c2) * 16 + d) :: acc)
              | _, _, _, _ => none
            | _ => none
          else none
      else if c.toNat < 32 then none
      else parseStrBody f rest (c :: acc)

/-- Numeric value of a list of decimal digits. -/
def digitsVal (ds : List Char) : Nat :=
  ds.foldl (fun acc c => acc * 10 + (c.toNat - 48)) 0

/-- A JSON number per the JSON grammar: optional minus sign, integer part
with no superfluous leading zero, optional fraction, optional exponent.  The
returned value is the signed integer part. -/
def parseNum (s : List Char) : Option (Int × List Char) :=
  let signed := match s with
    | c :: r => if c = '-' then (true, r) else (false, s)
    | [] => (false, s)
  let neg := signed.1
  let s1 := signed.2
  let ip := s1.takeWhile Char.isDigit
  let r1 := s1.dropWhile Char.isDigit
  if ip = [] then none
  else if 1 < ip.length ∧ ip.headD '0' = '0' then none
  else
    let afterFrac : Option (List Char) :=
      match r1 with
      | c :: r2 =>
        if c = '.' then
          let fd := r2.takeWhile Char.isDigit
          if fd = [] then none else some (r2.dropWhile Char.isDigit)
        else some r1
      | [] => some r1
    match afterFrac with
    | none => none
    | some r2 =>
      let afterExp : Option (List Char) :=
        match r2 with
        | c :: r3 =>
          if c = 'e' ∨ c = 'E' then
            let r4 := match r3 with
              | d :: r5 => if d = '+' ∨ d = '-' then r5 else r3
              | [] => r3
            let ed := r4.takeWhile Char.isDigit
            if ed = [] then none else some (r4.dropWhile Char.isDigit)
          else some r2
        | [] => some r2
      match afterExp with
      | none => none
      | some r3 =>
        let v : Int := Int.ofNat (digitsVal ip)
        some ((if neg then -v else v), r3)

/-- Expect a literal run of characters. -/
def expectChars (lit : List Char) (s : List Char) : Option (List Char) :=
  if lit.isPrefixOf s then some (s.drop lit.length) else none

/-- Parsing mode for the single fuelled recursive-descent JSON parser:
a value, the items of an array after the opening bracket, or the members of
an object after the opening brace. -/
inductive PMode where
  | val
  | arrItems (acc : List JsonValue)
  | objItems (acc : List (String × JsonValue))

/-- Recursive-descent parser for the JSON grammar accepted by JSON.parse.
Single function, structurally recursive on the fuel, so that concrete
payloads evaluate by definitional reduction. -/
def parseP : Nat → PMode → List Char → Option (JsonValue × List Char)
  | 0, _, _ => none
  | Nat.succ f, PMode.val, s =>
    match skipJsonWs s with
    | [] => none
    | c :: rest =>
      if c = quoteChar then
        (parseStrBody (rest.length + 1) rest []).map (fun p => (JsonValue.str p.1, p.2))
      else if c = lbraceChar then
        match skipJsonWs rest with
        | d :: rest2 => if d = rbraceChar then some (JsonValue.obj [], rest2)
                        else parseP f (PMode.objItems []) rest
        | [] => none
      else if c = '[' then
        match skipJsonWs rest with
        | d :: rest2 => if d = ']' then some (JsonValue.arr [], rest2)
                        else parseP f (PMode.arrItems []) rest
        | [] => none
      else if c = 't' then
        (expectChars ['r', 'u', 'e'] rest).map (fun r => (JsonValue.bool true, r))
      else if c = 'f' then
        (expectChars ['a', 'l', 's', 'e'] rest).map (fun r => (JsonValue.bool false, r))
      else if c = 'n' then
        (expectChars ['u', 'l', 'l'] rest).map (fun r => (JsonValue.null, r))
      else
        (parseNum (c :: rest)).map (fun p => (JsonValue.num p.1, p.2))
  | Nat.succ f, PMode.arrItems acc, s =>
    match parseP f PMode.val s with
    | none => none
    | some (v, r) =>
      match skipJsonWs r with
      | c :: r2 =>
        if c = ',' then parseP f (PMode.arrItems (v :: acc)) r2
        else if c = ']' then some (JsonValue.arr (v :: acc).reverse, r2)
        else none
      | [] => none
  | Nat.succ f, PMode.objItems acc, s =>
    match skipJsonWs s with
    | c :: r =>
      if c = quoteChar then
        match parseStrBody (r.length + 1) r [] with
        | none => none
        | some (k, r2) =>
          match skipJsonWs r2 with
          | d :: r3 =>
            if d = ':' then
              match parseP f PMode.val r3 with
              | none => none
              | some (v, r4) =>
                match skipJsonWs r4 with
                | e2 :: r5 =>
                  if e2 = ',' then parseP f (PMode.objItems ((k, v) :: acc)) r5
                  else if e2 = rbraceChar then some (JsonValue.obj ((k, v) :: acc).reverse, r5)
                  else none
                | [] => none
            else none
          | [] => none
      else none
    | [] => none

/-- Model of JSON.parse over a list of characters: parse one value and
require only whitespace to remain. -/
def jsonParse (payload : List Char) : Option JsonValue :=
  match parseP (2 * payload.length + 2) PMode.val payload with
  | some (v, rest) => if skipJsonWs rest = [] then some v else none
  | none => none

/-- Last binding of a key in an object member list; JSON.parse keeps the last
occurrence of a duplicated key. -/
def lookupLast : List (String × JsonValue) → String → Option JsonValue
  | [], _ => none
  | kv :: rest, key =>
    match lookupLast rest key with
    | some r => some r
    | none => if kv.1 = key then some kv.2 else none

/-- JavaScript property access parsed.key on a JSON.parse result: a value for
a key of an object, undefined (none) for a key absent or for a non-object
receiver.  Access on null throws and is handled at its use site. -/
def jsGetField (v : JsonValue) (key : String) : Option JsonValue :=
  match v with
  | JsonValue.obj fs => lookupLast fs key
  | _ => none

/-- JavaScript nullish coalescing a ?? b over possibly-absent JSON values:
b when a is undefined (none) or null, otherwise a. -/
def nullishOr (a b : Option JsonValue) : Option JsonValue :=
  match a with
  | none => b
  | some JsonValue.null => b
  | some v => some v

/-- Whether a JSON value is an object. -/
def isObjVal : JsonValue → Bool
  | JsonValue.obj _ => true
  | _ => false

/-- JavaScript truthiness of a JSON.parse result. -/
def jsTruthy : JsonValue → Bool
  | JsonValue.null => false
  | JsonValue.bool b => b
  | JsonValue.num n => n != 0
  | JsonValue.str s => s != ""
  | JsonValue.arr _ => true
  | JsonValue.obj _ => true

/-- An SSE event record as decoded by SSEStream (src/sse.ts).  Optional
fields hold the raw JSON values the TypeScript object would hold at runtime
(none corresponds to the field being undefined). -/
structure SSEEvent where
  workflow_request : Option JsonValue := none
  node_execution : Option JsonValue := none
  isKeepalive : Bool
  rawData : List Char
  eventType : Option JsonValue := none
  iteration : Option JsonValue := none
  runId : Option JsonValue := none
  textDelta : Option JsonValue := none
  reasoningDelta : Option JsonValue := none
  reasoningType : Option JsonValue := none
  toolCallId : Option JsonValue := none
  toolName : Option JsonValue := none
  toolArgsDelta : Option JsonValue := none
  toolArgs : Option JsonValue := none
  toolResult : Option JsonValue := none
  approved : Option JsonValue := none
  text : Option JsonValue := none
  message : Option JsonValue := none
  error : Option JsonValue := none

/-- Whether a record carries any structured projection (any of the optional
typed fields is populated). -/
def hasProjection (e : SSEEvent) : Bool :=
  e.workflow_request.isSome || e.node_execution.isSome || e.eventType.isSome ||
  e.iteration.isSome || e.runId.isSome || e.textDelta.isSome ||
  e.reasoningDelta.isSome || e.reasoningType.isSome || e.toolCallId.isSome ||
  e.toolName.isSome || e.toolArgsDelta.isSome || e.toolArgs.isSome ||
  e.toolResult.isSome || e.approved.isSome || e.text.isSome ||
  e.message.isSome || e.error.isSome

/-- The record yielded on JSON parse failure (src/sse.ts line 103): only
isKeepalive and rawData, all structured fields unset. -/
def rawEvent (payload : List Char) : SSEEvent :=
  { isKeepalive := false, rawData := payload }

/-- The characters of the keepalive sentinel payload. -/
def keepaliveChars : List Char := ['k', 'e', 'e', 'p', 'a', 'l', 'i', 'v', 'e']

/-- The keepalive record (src/sse.ts line 73). -/
def keepaliveEvent : SSEEvent :=
  { isKeepalive := true, rawData := keepaliveChars }

/-- The structured record built from a successfully parsed payload
(src/sse.ts lines 79-100): each recognized field is the corresponding
property of the parsed object, with the sub-task projection taken from
node_execution or, when that is nullish, node_exec. -/
def projectEvent (v : JsonValue) (payload : List Char) : SSEEvent :=
  { workflow_request := jsGetField v "workflow_request"
    node_execution := nullishOr (jsGetField v "node_execution") (jsGetField v "node_exec")
    isKeepalive := false
    rawData := payload
    eventType := jsGetField v "type"
    iteration := jsGetField v "iteration"
    runId := jsGetField v "run_id"
    textDelta := jsGetField v "delta"
    reasoningDelta := jsGetField v "reasoning_delta"
    reasoningType := jsGetField v "reasoning_type"
    toolCallId := jsGetField v "tool_call_id"
    toolName := jsGetField v "tool_name"
    toolArgsDelta := jsGetField v "tool_args_delta"
    toolArgs := jsGetField v "args"
    toolResult := jsGetField v "result"
    approved := jsGetField v "approved"
    text := jsGetField v "text"
    message := jsGetField v "message"
    error := jsGetField v "error" }

/-- The ECMAScript WhiteSpace and LineTerminator characters removed by
String.prototype.trim. -/
def isJsWhitespace (c : Char) : Bool :=
  let n := c.toNat
  n = 0x09 || n = 0x0A || n = 0x0B || n = 0x0C || n = 0x0D || n = 0x20 ||
  n = 0xA0 || n = 0x1680 || (0x2000 ≤ n && n ≤ 0x200A) || n = 0x2028 ||
  n = 0x2029 || n = 0x202F || n = 0x205F || n = 0x3000 || n = 0xFEFF

/-- Model of String.prototype.trim: strip leading and trailing JavaScript
whitespace. -/
def trimChars (s : List Char) : List Char :=
  ((s.dropWhile isJsWhitespace).reverse.dropWhile isJsWhitespace).reverse

/-- The characters of the event-data line marker, spelling data followed by
a colon. -/
def dataHead : List Char := ['d', 'a', 't', 'a', ':']

/-- Processing of one trimmed-and-sliced payload (src/sse.ts lines 72-104):
the keepalive sentinel yields the keepalive record; otherwise JSON.parse is
attempted.  A successful parse yields the structured record, except that a
parse result of null makes the subsequent property accesses throw a
TypeError which the same catch turns into the raw record; a parse failure
also yields the raw record. -/
def handlePayload (payload : List Char) : SSEEvent :=
  if payload = keepaliveChars then { isKeepalive := true, rawData := payload }
  else
    match jsonParse payload with
    | some JsonValue.null => rawEvent payload
    | some v => projectEvent v payload
    | none => rawEvent payload

/-- Processing of one complete line (src/sse.ts lines 65-105): trim, skip
empty lines, protocol comments and lines without the data marker, otherwise
strip the five marker characters, trim, and emit exactly one record for the
payload. -/
def handleLine (raw : List Char) : List SSEEvent :=
  if trimChars raw = [] then []
  else if [':'].isPrefixOf (trimChars raw) then []
  else if ¬ (dataHead.isPrefixOf (trimChars raw)) then []
  else [handlePayload (trimChars ((trimChars raw).drop 5))]

/-- Records emitted for a list of complete lines, in order (the for-loop of
src/sse.ts lines 65-105). -/
def emitAll : List (List Char) → List SSEEvent
  | [] => []
  | l :: ls => handleLine l ++ emitAll ls

/-- State of the WHATWG UTF-8 decoder used by TextDecoder in streaming mode:
the pending code point, how many continuation bytes are needed and seen, and
the admissible range of the next continuation byte. -/
structure Utf8State where
  codePoint : Nat
  bytesNeeded : Nat
  bytesSeen : Nat
  lowerB : Nat
  upperB : Nat
deriving DecidableEq

/-- The fresh UTF-8 decoder state. -/
def utf8Init : Utf8State :=
  { codePoint := 0, bytesNeeded := 0, bytesSeen := 0, lowerB := 0x80, upperB := 0xBF }

/-- WHATWG UTF-8 decoder handler for a byte arriving with no pending
sequence: ASCII is emitted directly, lead bytes open a multi-byte sequence
with the boundaries that exclude overlongs and surrogates, anything else is
an error emitting U+FFFD (the decoder is in replacement mode). -/
def utf8Start (b : Nat) : Utf8State × List Char :=
  if b ≤ 0x7F then (utf8Init, [Char.ofNat b])
  else if 0xC2 ≤ b ∧ b ≤ 0xDF then
    ({ codePoint := b % 32, bytesNeeded := 1, bytesSeen := 0, lowerB := 0x80, upperB := 0xBF }, [])
  else if 0xE0 ≤ b ∧ b ≤ 0xEF then
    ({ codePoint := b % 16, bytesNeeded := 2, bytesSeen := 0,
       lowerB := if b = 0xE0 then 0xA0 else 0x80,
       upperB := if b = 0xED then 0x9F else 0xBF }, [])
  else if 0xF0 ≤ b ∧ b ≤ 0xF4 then
    ({ codePoint := b % 8, bytesNeeded := 3, bytesSeen := 0,
       lowerB := if b = 0xF0 then 0x90 else 0x80,
       upperB := if b = 0xF4 then 0x8F else 0xBF }, [])
  else (utf8Init, [replChar])

/-- One byte of the WHATWG UTF-8 decoder.  A continuation byte outside the
admissible range emits U+FFFD and reprocesses the byte with a fresh state. -/
def utf8Step (st : Utf8State) (b : Nat) : Utf8State × List Char :=
  if st.bytesNeeded = 0 then utf8Start b
  else if b < st.lowerB ∨ st.upperB < b then
    let r := utf8Start b
    (r.1, replChar :: r.2)
  else
    let cp := st.codePoint * 64 + b % 64
    let seen := st.bytesSeen + 1
    if seen = st.bytesNeeded then (utf8Init, [Char.ofNat cp])
    else ({ codePoint := cp, bytesNeeded := st.bytesNeeded, bytesSeen := seen,
            lowerB := 0x80, upperB := 0xBF }, [])

/-- Streaming text decode of a chunk of bytes, carrying the UTF-8 state
across chunk boundaries, as TextDecoder.decode with the stream flag does
(src/sse.ts line 59).  A byte-order mark at the start of the stream is not
stripped here; it is covered by trimming, since U+FEFF is JavaScript
whitespace and can only occur at the start of the first line. -/
def decodeBytes (u : Utf8State) : List Nat → Utf8State × List Char
  | [] => (u, [])
  | b :: bs =>
    let s := utf8Step u b
    let r := decodeBytes s.1 bs
    (r.1, s.2 ++ r.2)

/-- Split a text on line-feed characters into the list of complete
(newline-terminated) lines and the trailing unterminated fragment.  This is
buffer.split followed by popping the last element (src/sse.ts lines 61-63). -/
def splitNl : List Char → List (List Char) × List Char
  | [] => ([], [])
  | c :: rest =>
    let p := splitNl rest
    if c = '\n' then ([] :: p.1, p.2)
    else
      match p.1 with
      | [] => ([], c :: p.2)
      | l :: ls => ((c :: l) :: ls, p.2)

/-- Combined decode state of one SSEStream: the TextDecoder state and the
line buffer. -/
structure DecoderState where
  utf8 : Utf8State
  buffer : List Char
deriving DecidableEq

/-- The decode state of a freshly constructed SSEStream. -/
def decoderInit : DecoderState := { utf8 := utf8Init, buffer := [] }

/-- Processing of one arriving chunk (src/sse.ts lines 59-105): decode the
bytes incrementally, append to the buffer, split on newlines keeping the
last incomplete line as the new buffer, and emit the records of all complete
lines in order. -/
def feedChunk (st : DecoderState) (bytes : List Nat) : DecoderState × List SSEEvent :=
  let td := decodeBytes st.utf8 bytes
  let p := splitNl (st.buffer ++ td.2)
  ({ utf8 := td.1, buffer := p.2 }, emitAll p.1)

/-- Iterating the decoder over a sequence of delivered chunks from a given
state, collecting all yielded records.  At end of stream the final state
(decoder remainder and line buffer) is discarded, never emitted. -/
def decodeChunksFrom (st : DecoderState) : List (List Nat) → DecoderState × List SSEEvent
  | [] => (st, [])
  | c :: cs =>
    let p := feedChunk st c
    let q := decodeChunksFrom p.1 cs
    (q.1, p.2 ++ q.2)

/-- All records yielded by an SSEStream iteration over a chunked delivery
that ends with a clean end of stream. -/
def decodeChunks (chunks : List (List Nat)) : List SSEEvent :=
  (decodeChunksFrom decoderInit chunks).2

/-- Concatenation of the delivered chunks into one byte sequence. -/
def catBytes : List (List Nat) → List Nat
  | [] => []
  | c :: cs => c ++ catBytes cs

/-- The records decoded from a complete text: the records of its complete
lines; the trailing fragment after the last newline contributes nothing. -/
def decodeText (text : List Char) : List SSEEvent :=
  emitAll (splitNl text).1

/-- Result of one read of the underlying byte source: a chunk, end of
stream, or an asynchronous failure identified by a message. -/
inductive ReadResult where
  | chunk (bytes : List Nat)
  | eos
  | fail (e : String)

/-- A surfaced stream error: the wrapping message and the underlying cause
(StreamError of src/errors.ts as thrown in src/sse.ts lines 109-112). -/
structure StreamErrorV where
  errMessage : String
  cause : Option String
deriving DecidableEq

/-- The message of the error wrapping a failed read. -/
def streamReadFailMsg : String := "SSE stream read failed"

/-- Lifecycle state of one SSEStream handle: its decode state and the closed
flag. -/
structure SSEHandle where
  dec : DecoderState
  closed : Bool

/-- close (src/sse.ts lines 117-122): set the closed flag; the reader
cancellation it also requests has no effect on decode state and its errors
are ignored. -/
def sseClose (h : SSEHandle) : SSEHandle :=
  { h with closed := true }

/-- One complete iteration of the SSEStream async iterator (src/sse.ts lines
52-114) over a schedule of read results.  The Bool paired with each read
says whether the consumer invoked close while that read was being handled
(for a chunk: while consuming its yielded records; for a failure: while the
read was in flight).  The loop guard rechecks the closed flag before every
read; a read failure is swallowed when the handle was closed and otherwise
surfaces as a StreamError wrapping the cause. -/
def sseRun (st : DecoderState) (closed : Bool) :
    List (ReadResult × Bool) → List SSEEvent × Option StreamErrorV
  | [] => ([], none)
  | (r, closeNow) :: rest =>
    if closed then ([], none)
    else
      match r with
      | ReadResult.eos => ([], none)
      | ReadResult.fail e =>
        if closeNow then ([], none)
        else ([], some { errMessage := streamReadFailMsg, cause := some e })
      | ReadResult.chunk bs =>
        let p := feedChunk st bs
        let q := sseRun p.1 closeNow rest
        (p.2 ++ q.1, q.2)

/-- The fixed terminal set of runAndWait (src/workflows.ts line 182). -/
def TERMINAL : List String := ["completed", "failed", "stopped"]

/-- The terminal-status test of the runAndWait loop (src/workflows.ts lines
189-192): the record carries a truthy operation-status projection whose
status property is in the terminal set.  A status that is absent or not a
string makes the set membership test false. -/
def isTerminalEvent (e : SSEEvent) : Bool :=
  match e.workflow_request with
  | none => false
  | some v =>
    jsTruthy v &&
      (match jsGetField v "status" with
       | some (JsonValue.str s) => TERMINAL.contains s
       | _ => false)

/-- How the opened event stream behaves during one orchestrated wait: either
the listen call itself fails, or the stream yields a sequence of records and
then either ends cleanly (none) or raises an error (some). -/
inductive WaitStreamOutcome where
  | openFailed (e : String)
  | yields (evs : List SSEEvent) (err : Option String)

/-- Result of one terminating runAndWait execution: the fetched snapshot, a
TimeoutError carrying the configured duration, or the propagated failure. -/
inductive WaitResult (α : Type) where
  | success (tree : α)
  | timeoutErr (ms : Nat)
  | failure (e : String)

/-- Observable resource actions of one runAndWait execution: arming the
deadline timer, clearing it, closing the stream, and fetching the execution
tree. -/
inductive WaitAction where
  | armTimer
  | clearTimer
  | closeStream
  | fetchTree
deriving DecidableEq

/-- Model of WorkflowService.runAndWait after the initial run call
(src/workflows.ts lines 179-212), as a function of how the opened stream
behaves, of whether the deadline signal had fired when an error was caught,
and of the snapshot that the execution-tree lookup returns (the lookup
itself is modelled as succeeding; the claims under verification concern
stream failures).  Mirrors the source control flow path by path:

- the timer is armed, then listen and the iteration run inside a try whose
  catch raises TimeoutError exactly when the own signal is aborted and
  rethrows the error unchanged otherwise, and whose finally clears the
  timer;
- a record passing the terminal test returns the looked-up snapshot, with
  the inner finally closing the stream (the error of a stream that would
  have failed later is never observed);
- a stream that ends without a terminal record falls through and still
  returns the looked-up snapshot, fetched after the finally ran.

The result is paired with the ordered log of resource actions. -/
def runAndWaitModel {α : Type} (outcome : WaitStreamOutcome) (aborted : Bool)
    (tree : α) (timeoutMs : Nat := 300000) : WaitResult α × List WaitAction :=
  match outcome with
  | WaitStreamOutcome.openFailed e =>
    if aborted then (WaitResult.timeoutErr timeoutMs, [WaitAction.armTimer, WaitAction.clearTimer])
    else (WaitResult.failure e, [WaitAction.armTimer, WaitAction.clearTimer])
  | WaitStreamOutcome.yields evs err =>
    if evs.any isTerminalEvent then
      (WaitResult.success tree,
       [WaitAction.armTimer, WaitAction.fetchTree, WaitAction.closeStream, WaitAction.clearTimer])
    else
      match err with
      | none =>
        (WaitResult.success tree,
         [WaitAction.armTimer, WaitAction.closeStream, WaitAction.clearTimer, WaitAction.fetchTree])
      | some e =>
        if aborted then
          (WaitResult.timeoutErr timeoutMs,
           [WaitAction.armTimer, WaitAction.closeStream, WaitAction.clearTimer])
        else
          (WaitResult.failure e,
           [WaitAction.armTimer, WaitAction.closeStream, WaitAction.clearTimer])

/-- Whether the wait was interrupted by a failure before any terminal-status
record was observed (the only situation in which the catch of runAndWait
runs). -/
def failedBeforeTerminal : WaitStreamOutcome → Bool
  | WaitStreamOutcome.openFailed _ => true
  | WaitStreamOutcome.yields evs (some _) => !(evs.any isTerminalEvent)
  | WaitStreamOutcome.yields _ none => false

/-- The stream failure surfaced to the catch of runAndWait, when there is
one: either the listen call failed, or iteration raised after records none
of which was terminal. -/
def surfacedError : WaitStreamOutcome → Option String
  | WaitStreamOutcome.openFailed e => some e
  | WaitStreamOutcome.yields evs (some e) =>
    if evs.any isTerminalEvent then none else some e
  | WaitStreamOutcome.yields _ none => none

/-- Recombination of the split of two concatenated texts: the fragment of
the first text extends the first complete line of the second, or, when the
second has no complete line, its fragment. -/
def joinSplit (pa pb : List (List Char) × List Char) : List (List Char) × List Char :=
  match pb.1 with
  | [] => (pa.1, pa.2 ++ pb.2)
  | h :: t => (pa.1 ++ (pa.2 ++ h) :: t, pb.2)

/-- A sample record carrying a terminal operation-status projection, used to
instantiate the orchestrator theorems. -/
def termEventEx : SSEEvent :=
  { isKeepalive := false, rawData := [],
    workflow_request := some (JsonValue.obj [("status", JsonValue.str "completed")]) }

/-- A sample payload using the alternate sub-task key spelling: an object
with a node_exec member and a type member. -/
def payloadEx : List Char := String.toList "\x7b\"node_exec\": 5, \"type\": \"x\"\x7d"

/-- The parse of payloadEx. -/
def payloadExVal : JsonValue :=
  JsonValue.obj [("node_exec", JsonValue.num 5), ("type", JsonValue.str "x")]

/-- The bytes of one keepalive event in a chunk of its own. -/
def kaBytes : List Nat := (String.toList "data: keepalive\n\n").map Char.toNat

/-! ## Lemmas about splitting and chunk composition -/

theorem emitAll_append (xs ys : List (List Char)) :
    emitAll (xs ++ ys) = emitAll xs ++ emitAll ys := by
  induction xs with
  | nil => rfl
  | cons l ls ih => simp [emitAll, ih]

theorem splitNl_append (a b : List Char) :
    splitNl (a ++ b) = joinSplit (splitNl a) (splitNl b) := by
  induction a with
  | nil =>
    rcases hb : splitNl b with ⟨lb, fb⟩
    cases lb <;> simp [splitNl, joinSplit, hb]
  | cons c a ih =>
    rcases ha : splitNl a with ⟨la, fa⟩
    rcases hb : splitNl b with ⟨lb, fb⟩
    rw [ha, hb] at ih
    by_cases hc : c = '\n'
    · subst hc
      cases lb <;> cases la <;>
        simp_all [splitNl, joinSplit]
    · cases lb <;> cases la <;>
        simp_all [splitNl, joinSplit]

theorem splitNl_snd_no_nl (s : List Char) : '\n' ∉ (splitNl s).2 := by
  induction s with
  | nil => simp [splitNl]
  | cons c s ih =>
    rcases h : splitNl s with ⟨l, f⟩
    rw [h] at ih
    by_cases hc : c = '\n'
    · subst hc; simp [splitNl, h, ih]
    · cases l <;> simp_all [splitNl]
      exact fun hx => hc hx.symm

theorem splitNl_of_no_nl (s : List Char) (h : '\n' ∉ s) : splitNl s = ([], s) := by
  induction s with
  | nil => rfl
  | cons c s ih =>
    have hc : ¬ c = '\n' := fun hx => h (hx ▸ List.mem_cons_self c s)
    have hs : '\n' ∉ s := fun m => h (List.mem_cons_of_mem _ m)
    simp [splitNl, ih hs, hc]

theorem decodeBytes_append (u : Utf8State) (a b : List Nat) :
    decodeBytes u (a ++ b) =
      ((decodeBytes (decodeBytes u a).1 b).1,
       (decodeBytes u a).2 ++ (decodeBytes (decodeBytes u a).1 b).2) := by
  induction a generalizing u with
  | nil => simp [decodeBytes]
  | cons x a ih => simp [decodeBytes, ih]

theorem feedChunk_append (st : DecoderState) (a b : List Nat) :
    feedChunk st (a ++ b) =
      ((feedChunk (feedChunk st a).1 b).1,
       (feedChunk st a).2 ++ (feedChunk (feedChunk st a).1 b).2) := by
  rcases hda : decodeBytes st.utf8 a with ⟨u1, ta⟩
  rcases hdb : decodeBytes u1 b with ⟨u2, tb⟩
  rcases hp : splitNl (st.buffer ++ ta) with ⟨l1, f1⟩
  rcases hq : splitNl tb with ⟨lq, fq⟩
  have hf1 : '\n' ∉ f1 := by
    have h := splitNl_snd_no_nl (st.buffer ++ ta)
    rw [hp] at h; exact h
  have key : splitNl (st.buffer ++ (ta ++ tb)) = joinSplit (l1, f1) (lq, fq) := by
    rw [← List.append_assoc, splitNl_append, hp, hq]
  have key2 : splitNl (f1 ++ tb) = joinSplit ([], f1) (lq, fq) := by
    rw [splitNl_append, splitNl_of_no_nl f1 hf1, hq]
  cases lq with
  | nil =>
    simp only [joinSplit] at key key2
    simp [feedChunk, decodeBytes_append, hda, hdb, hp, key, key2, emitAll_append, emitAll]
  | cons h t =>
    simp only [joinSplit] at key key2
    simp [feedChunk, decodeBytes_append, hda, hdb, hp, key, key2, emitAll_append, emitAll]

theorem feedChunk_no_nl (st : DecoderState) (bs : List Nat) :
    '\n' ∉ (feedChunk st bs).1.buffer := by
  simp only [feedChunk]
  exact splitNl_snd_no_nl _

theorem decodeChunksFrom_flatten (cs : List (List Nat)) (st : DecoderState)
    (h : '\n' ∉ st.buffer) :
    decodeChunksFrom st cs = feedChunk st (catBytes cs) := by
  induction cs generalizing st with
  | nil =>
    simp [decodeChunksFrom, feedChunk, decodeBytes, catBytes,
      splitNl_of_no_nl _ h, emitAll]
  | cons c cs ih =>
    simp only [decodeChunksFrom, catBytes]
    rw [ih _ (feedChunk_no_nl st c), feedChunk_append]

/-! ## Lemmas about line and payload handling -/

theorem jsonParse_keepalive : jsonParse keepaliveChars = none := rfl

theorem handleLine_data (raw : List Char)
    (h : dataHead.isPrefixOf (trimChars raw) = true) :
    handleLine raw = [handlePayload (trimChars ((trimChars raw).drop 5))] := by
  unfold handleLine
  rcases hl : trimChars raw with _ | ⟨c, cs⟩
  · rw [hl] at h; simp [dataHead, List.isPrefixOf] at h
  · rw [hl] at h
    simp only [dataHead, List.isPrefixOf, Bool.and_eq_true, beq_iff_eq] at h
    obtain ⟨hc, hpre⟩ := h
    subst hc
    simp [hl, List.isPrefixOf, hpre, dataHead]

theorem emitAll_mem {r : SSEEvent} {ls : List (List Char)} (h : r ∈ emitAll ls) :
    ∃ l, r ∈ handleLine l := by
  induction ls with
  | nil => simp [emitAll] at h
  | cons l ls ih =>
    rw [emitAll, List.mem_append] at h
    rcases h with h | h
    · exact ⟨l, h⟩
    · exact ih h

theorem decodeChunksFrom_mem {r : SSEEvent} {cs : List (List Nat)}
    (st : DecoderState) (h : r ∈ (decodeChunksFrom st cs).2) :
    ∃ l, r ∈ handleLine l := by
  induction cs generalizing st with
  | nil => simp [decodeChunksFrom] at h
  | cons c cs ih =>
    simp only [decodeChunksFrom, List.mem_append] at h
    rcases h with h | h
    · have h2 : r ∈ emitAll (splitNl (st.buffer ++ (decodeBytes st.utf8 c).2)).1 := by
        simpa [feedChunk] using h
      exact emitAll_mem h2
    · exact ih _ h

theorem handlePayload_keepalive_no_proj (p : List Char)
    (hk : (handlePayload p).isKeepalive = true) :
    hasProjection (handlePayload p) = false := by
  unfold handlePayload at hk ⊢
  by_cases hp : p = keepaliveChars
  · simp [hp, hasProjection]
  · rw [if_neg hp] at hk ⊢
    rcases hj : jsonParse p with _ | v
    · rw [hj] at hk
      simp [rawEvent] at hk
    · rw [hj] at hk
      cases v <;> simp [rawEvent, projectEvent] at hk

theorem handleLine_keepalive_no_proj {r : SSEEvent} {l : List Char}
    (h : r ∈ handleLine l) (hk : r.isKeepalive = true) :
    hasProjection r = false := by
  unfold handleLine at h
  split at h
  · simp at h
  · split at h
    · simp at h
    · split at h
      · simp at h
      · rw [List.mem_singleton] at h
        subst h
        exact handlePayload_keepalive_no_proj _ hk

/-! ## Claim theorems -/

/-- Claim C1: for every byte sequence and every partition of it into chunks
(including splits inside a multi-byte UTF-8 character or inside a line),
iterating the SSE decoder over the chunked delivery yields exactly the same
records, in the same order, as delivering all bytes as one single chunk. -/
theorem sse_chunking_invariance (chunks : List (List Nat)) :
    decodeChunks chunks = decodeChunks [catBytes chunks] := by
  unfold decodeChunks
  rw [decodeChunksFrom_flatten chunks decoderInit (by simp [decoderInit]),
      decodeChunksFrom_flatten [catBytes chunks] decoderInit (by simp [decoderInit])]
  simp [catBytes]

/-- Claim C8: when the underlying read reports end of stream, decoding stops
and the unterminated trailing fragment held in the buffer is discarded and
never emitted: the decoded records are exactly those of the complete lines,
appending a newline-free fragment to a text changes nothing, and the empty
byte stream decodes to zero records. -/
theorem sse_eos_discards_fragment :
    (∀ chunks, decodeChunks chunks =
        decodeText (decodeBytes utf8Init (catBytes chunks)).2) ∧
    (∀ pre frag, '\n' ∉ frag → decodeText (pre ++ frag) = decodeText pre) ∧
    decodeChunks [] = [] ∧ decodeChunks [[]] = [] := by
  refine ⟨?_, ?_, rfl, rfl⟩
  · intro chunks
    unfold decodeChunks
    rw [decodeChunksFrom_flatten chunks decoderInit (by simp [decoderInit])]
    rcases hd : decodeBytes utf8Init (catBytes chunks) with ⟨u, text⟩
    simp [feedChunk, decodeText, decoderInit, hd]
  · intro pre frag hf
    unfold decodeText
    rw [splitNl_append, splitNl_of_no_nl frag hf]
    rcases hp : splitNl pre with ⟨lp, fp⟩
    simp [joinSplit]

/-- Witness for C8 at a concrete text and trailing fragment. -/
theorem sse_eos_discards_fragment_witness :
    decodeText (String.toList "data: keepalive\n" ++ String.toList "data: tr") =
      decodeText (String.toList "data: keepalive\n") :=
  sse_eos_discards_fragment.2.1 _ _ (by decide)

/-- Claim C4: an empty line, a comment line and a line without the data
marker (all after trimming) produce no record; every non-empty, non-comment
data line produces exactly one record; and a list of data lines is never
merged: it yields one record per line, in arrival order. -/
theorem sse_line_rules :
    (∀ raw, trimChars raw = [] → handleLine raw = []) ∧
    (∀ raw, [':'].isPrefixOf (trimChars raw) = true → handleLine raw = []) ∧
    (∀ raw, dataHead.isPrefixOf (trimChars raw) = false → handleLine raw = []) ∧
    (∀ raw, trimChars raw ≠ [] → [':'].isPrefixOf (trimChars raw) = false →
        dataHead.isPrefixOf (trimChars raw) = true → (handleLine raw).length = 1) ∧
    (∀ ls, (∀ l ∈ ls, dataHead.isPrefixOf (trimChars l) = true) →
        emitAll ls =
          ls.map (fun l => handlePayload (trimChars ((trimChars l).drop 5)))) := by
  refine ⟨?_, ?_, ?_, ?_, ?_⟩
  · intro raw h; simp [handleLine, h]
  · intro raw h; simp [handleLine, h]
  · intro raw h; simp [handleLine, h]
  · intro raw h1 h2 h3
    rw [handleLine_data raw h3]
    rfl
  · intro ls h
    induction ls with
    | nil => rfl
    | cons l ls ih =>
      rw [emitAll, handleLine_data l (h l (List.mem_cons_self l ls)), List.map,
          ih (fun x hx => h x (List.mem_cons_of_mem l hx))]
      rfl

/-- Witness for C4 at concrete lines. -/
theorem sse_line_rules_witness :
    (handleLine (String.toList "data: x")).length = 1 ∧
    handleLine (String.toList " ") = [] ∧
    handleLine (String.toList ": note") = [] ∧
    handleLine (String.toList "event: y") = [] :=
  ⟨sse_line_rules.2.2.2.1 _ (by decide) (by decide) (by decide),
   sse_line_rules.1 _ (by decide),
   sse_line_rules.2.1 _ (by decide),
   sse_line_rules.2.2.1 _ (by decide)⟩

/-- Claim C6: a data line whose payload trims to the keepalive sentinel
yields exactly one keepalive record with rawData equal to the sentinel, and
every record the decoder ever emits with isKeepalive true carries no
structured projection. -/
theorem sse_keepalive_rules :
    (∀ raw, dataHead.isPrefixOf (trimChars raw) = true →
        trimChars ((trimChars raw).drop 5) = keepaliveChars →
        handleLine raw = [keepaliveEvent]) ∧
    (∀ chunks r, r ∈ decodeChunks chunks → r.isKeepalive = true →
        hasProjection r = false) := by
  constructor
  · intro raw h hp
    rw [handleLine_data raw h, hp]
    rfl
  · intro chunks r hr hk
    obtain ⟨l, hl⟩ := decodeChunksFrom_mem decoderInit hr
    exact handleLine_keepalive_no_proj hl hk

/-- Witness for C6 at a concrete keepalive line and delivery. -/
theorem sse_keepalive_rules_witness :
    handleLine (String.toList "data: keepalive") = [keepaliveEvent] ∧
    hasProjection keepaliveEvent = false := by
  constructor
  · exact sse_keepalive_rules.1 _ (by decide) (by decide)
  · refine sse_keepalive_rules.2 [kaBytes] keepaliveEvent ?_ rfl
    have h : decodeChunks [kaBytes] = [keepaliveEvent] := rfl
    rw [h]
    exact List.mem_singleton.mpr rfl

/-- Claim C5: a non-keepalive payload that parses as JSON yields a record
with isKeepalive false, rawData the payload text, and each recognized field
equal to the corresponding property of the parsed value, the sub-task
projection coming from node_execution or, when nullish, node_exec; fields
absent from the payload stay unset.  A payload that fails to parse yields
the raw record with all structured fields unset, and the failure never
raises. -/
theorem sse_structured_payload :
    (∀ p v, p ≠ keepaliveChars → jsonParse p = some v →
        (handlePayload p).isKeepalive = false ∧
        (handlePayload p).rawData = p ∧
        (handlePayload p).workflow_request = jsGetField v "workflow_request" ∧
        (handlePayload p).node_execution =
          nullishOr (jsGetField v "node_execution") (jsGetField v "node_exec") ∧
        (handlePayload p).eventType = jsGetField v "type" ∧
        (handlePayload p).iteration = jsGetField v "iteration" ∧
        (handlePayload p).runId = jsGetField v "run_id" ∧
        (handlePayload p).textDelta = jsGetField v "delta" ∧
        (handlePayload p).reasoningDelta = jsGetField v "reasoning_delta" ∧
        (handlePayload p).reasoningType = jsGetField v "reasoning_type" ∧
        (handlePayload p).toolCallId = jsGetField v "tool_call_id" ∧
        (handlePayload p).toolName = jsGetField v "tool_name" ∧
        (handlePayload p).toolArgsDelta = jsGetField v "tool_args_delta" ∧
        (handlePayload p).toolArgs = jsGetField v "args" ∧
        (handlePayload p).toolResult = jsGetField v "result" ∧
        (handlePayload p).approved = jsGetField v "approved" ∧
        (handlePayload p).text = jsGetField v "text" ∧
        (handlePayload p).message = jsGetField v "message" ∧
        (handlePayload p).error = jsGetField v "error") ∧
    (∀ p, p ≠ keepaliveChars → jsonParse p = none →
        handlePayload p = rawEvent p) := by
  constructor
  · intro p v hp hj
    unfold handlePayload
    rw [if_neg hp, hj]
    cases v <;> simp [projectEvent, rawEvent, jsGetField, nullishOr]
  · intro p hp hj
    unfold handlePayload
    rw [if_neg hp, hj]

/-- Witness for C5: the alternate sub-task spelling is projected, an absent
field stays unset, and a malformed payload degrades to the raw record. -/
theorem sse_structured_payload_witness :
    (handlePayload payloadEx).node_execution = some (JsonValue.num 5) ∧
    (handlePayload payloadEx).eventType = some (JsonValue.str "x") ∧
    (handlePayload payloadEx).toolName = none ∧
    handlePayload (String.toList "nope") = rawEvent (String.toList "nope") := by
  refine ⟨?_, ?_, ?_, ?_⟩
  · exact ((sse_structured_payload.1 payloadEx payloadExVal (by decide) rfl).2.2.2.1).trans rfl
  · exact ((sse_structured_payload.1 payloadEx payloadExVal (by decide) rfl).2.2.2.2.1).trans rfl
  · exact ((sse_structured_payload.1 payloadEx payloadExVal (by decide) rfl).2.2.2.2.2.2.2.2.2.2.2.1).trans rfl
  · exact sse_structured_payload.2 _ (by decide) rfl

/-- Claim C10: a payload parsing as JSON but not as an object (null, a
number, a string, a boolean, an array) still yields exactly the raw record:
isKeepalive false, rawData the payload, no structured projection, and the
decoder does not throw; in particular null, whose property access faults,
degrades to the raw record through the shared catch. -/
theorem sse_nonobject_payload :
    ∀ p v, jsonParse p = some v → isObjVal v = false →
      handlePayload p = rawEvent p ∧
      (handlePayload p).isKeepalive = false ∧
      (handlePayload p).rawData = p ∧
      hasProjection (handlePayload p) = false := by
  intro p v hj hv
  have hp : p ≠ keepaliveChars := by
    intro h
    rw [h, jsonParse_keepalive] at hj
    exact Option.noConfusion hj
  have hmain : handlePayload p = rawEvent p := by
    unfold handlePayload
    rw [if_neg hp, hj]
    cases v with
    | null => rfl
    | obj fs => simp [isObjVal] at hv
    | bool b => simp [projectEvent, rawEvent, jsGetField, nullishOr]
    | num n => simp [projectEvent, rawEvent, jsGetField, nullishOr]
    | str s => simp [projectEvent, rawEvent, jsGetField, nullishOr]
    | arr xs => simp [projectEvent, rawEvent, jsGetField, nullishOr]
  refine ⟨hmain, ?_, ?_, ?_⟩ <;> rw [hmain] <;> rfl

/-- Witness for C10 at the payload null. -/
theorem sse_nonobject_payload_witness :
    handlePayload (String.toList "null") = rawEvent (String.toList "null") ∧
    hasProjection (handlePayload (String.toList "null")) = false :=
  ⟨(sse_nonobject_payload (String.toList "null") JsonValue.null rfl rfl).1,
   (sse_nonobject_payload (String.toList "null") JsonValue.null rfl rfl).2.2.2⟩

/-- Claim C7: close on a stream handle is idempotent; once the handle is
closed, iteration ends silently and an in-flight or later read failure is
swallowed; a read failure on a never-closed handle surfaces as a stream
error wrapping the underlying cause. -/
theorem sse_close_rules :
    (∀ h, sseClose (sseClose h) = sseClose h) ∧
    (∀ st reads, sseRun st true reads = ([], none)) ∧
    (∀ st e rest, sseRun st false ((ReadResult.fail e, true) :: rest) = ([], none)) ∧
    (∀ st pre e rest,
        sseRun st false (pre.map (fun bs => (ReadResult.chunk bs, false)) ++
            (ReadResult.fail e, false) :: rest) =
          ((decodeChunksFrom st pre).2,
           some { errMessage := streamReadFailMsg, cause := some e })) := by
  refine ⟨fun h => rfl, ?_, ?_, ?_⟩
  · intro st reads
    cases reads <;> simp [sseRun]
  · intro st e rest
    simp [sseRun]
  · intro st pre e rest
    induction pre generalizing st with
    | nil => simp [sseRun, decodeChunksFrom]
    | cons c cs ih => simp [sseRun, decodeChunksFrom, ih]

/-- Claim C2: runAndWait raises TimeoutError exactly when its own deadline
signal fired and the wait was interrupted before a terminal status was
observed; a failure with the signal not fired propagates unchanged, neither
wrapped nor converted; the deadline duration defaults to 300000
milliseconds. -/
theorem runAndWait_timeout_iff :
    (∀ (o : WaitStreamOutcome) (a : Bool) (tree : String) (ms : Nat),
        ((runAndWaitModel o a tree ms).1 = WaitResult.timeoutErr ms ↔
          a = true ∧ failedBeforeTerminal o = true)) ∧
    (∀ (o : WaitStreamOutcome) (a : Bool) (tree : String) (ms : Nat) (e : String),
        a = false → surfacedError o = some e →
        (runAndWaitModel o a tree ms).1 = WaitResult.failure e) ∧
    (∀ (o : WaitStreamOutcome) (a : Bool) (tree : String),
        runAndWaitModel o a tree = runAndWaitModel o a tree 300000) := by
  refine ⟨?_, ?_, fun o a tree => rfl⟩
  · intro o a tree ms
    cases o with
    | openFailed e => cases a <;> simp [runAndWaitModel, failedBeforeTerminal]
    | yields evs err =>
      cases err with
      | none =>
        by_cases ht : evs.any isTerminalEvent <;> cases a <;>
          simp [runAndWaitModel, failedBeforeTerminal, ht]
      | some e =>
        by_cases ht : evs.any isTerminalEvent <;> cases a <;>
          simp [runAndWaitModel, failedBeforeTerminal, ht]
  · intro o a tree ms e ha hs
    subst ha
    cases o with
    | openFailed e2 =>
      simp only [surfacedError, Option.some.injEq] at hs
      subst hs
      simp [runAndWaitModel]
    | yields evs err =>
      cases err with
      | none => simp [surfacedError] at hs
      | some e2 =>
        by_cases ht : evs.any isTerminalEvent
        · simp [surfacedError, ht] at hs
        · simp only [surfacedError, ht, if_neg, Bool.false_eq_true,
            ite_false, Option.some.injEq] at hs
          subst hs
          simp [runAndWaitModel, ht]

/-- Witness for C2: with the signal fired the model raises the timeout
error, without it the same stream failure propagates unchanged. -/
theorem runAndWait_timeout_iff_witness :
    (runAndWaitModel (WaitStreamOutcome.yields [] (some "halt")) true "T" 7).1 =
        WaitResult.timeoutErr 7 ∧
    (runAndWaitModel (WaitStreamOutcome.yields [] (some "halt")) false "T" 7).1 =
        WaitResult.failure "halt" :=
  ⟨(runAndWait_timeout_iff.1 _ true "T" 7).mpr ⟨rfl, rfl⟩,
   runAndWait_timeout_iff.2.1 _ false "T" 7 "halt" rfl rfl⟩

/-- Claim C3: whenever the stream concludes without error the model returns
the snapshot fetched by the separate lookup: a record with terminal status
stops the iteration, closes the stream and returns the snapshot regardless
of anything the stream would have done later, and a stream that ends with no
terminal status still returns the snapshot rather than an error. -/
theorem runAndWait_snapshot :
    (∀ (evs : List SSEEvent) (a : Bool) (tree : String) (ms : Nat),
        (runAndWaitModel (WaitStreamOutcome.yields evs none) a tree ms).1 =
          WaitResult.success tree) ∧
    (∀ (pre : List SSEEvent) (t : SSEEvent) (post : List SSEEvent)
        (err : Option String) (a : Bool) (tree : String) (ms : Nat),
        isTerminalEvent t = true →
        runAndWaitModel (WaitStreamOutcome.yields (pre ++ t :: post) err) a tree ms =
          (WaitResult.success tree,
           [WaitAction.armTimer, WaitAction.fetchTree, WaitAction.closeStream,
            WaitAction.clearTimer])) := by
  constructor
  · intro evs a tree ms
    by_cases ht : evs.any isTerminalEvent <;> simp [runAndWaitModel, ht]
  · intro pre t post err a tree ms ht
    have hany : (pre ++ t :: post).any isTerminalEvent = true := by
      simp [List.any_append, List.any_cons, ht]
    simp [runAndWaitModel, hany]

/-- Witness for C3 at a concrete terminal record followed by a failure that
is never observed. -/
theorem runAndWait_snapshot_witness :
    runAndWaitModel (WaitStreamOutcome.yields [termEventEx] (some "late")) true "T" 5 =
      (WaitResult.success "T",
       [WaitAction.armTimer, WaitAction.fetchTree, WaitAction.closeStream,
        WaitAction.clearTimer]) :=
  runAndWait_snapshot.2 [] termEventEx [] (some "late") true "T" 5 rfl

/-- Claim C9: every terminating execution of the orchestrated wait, whether
it succeeds, times out or propagates a failure, arms the deadline timer and
cancels it before concluding; no path leaves the timer pending. -/
theorem runAndWait_timer_cleared (o : WaitStreamOutcome) (a : Bool) (tree : String)
    (ms : Nat) :
    WaitAction.armTimer ∈ (runAndWaitModel o a tree ms).2 ∧
    WaitAction.clearTimer ∈ (runAndWaitModel o a tree ms).2 := by
  cases o with
  | openFailed e => cases a <;> simp [runAndWaitModel]
  | yields evs err =>
    by_cases ht : evs.any isTerminalEvent
    · simp [runAndWaitModel, ht]
    · cases err with
      | none => simp [runAndWaitModel, ht]
      | some e => cases a <;> simp [runAndWaitModel, ht]

end Splox
